import Mathlib

/-!
Verification of the transaction orchestration layer of the repository
(`src/backend/src/utils/TransactionManager.ts`).

The TypeScript `TransactionManager` is shallowly embedded as executable
state-transformer functions.  The relational store and the fallible
driver operations (connect, start/commit/rollback transaction, savepoint
statements) are modelled explicitly:

* `Store` is the database state visible through one connection:
  committed writes, the pending (uncommitted) writes of the open
  transaction, whether a transaction is active, and its isolation level.
* `Env` is a fault model: for each driver operation, `none` means the
  operation succeeds and `some m` means it throws a JS error with
  message `m`.  This lets the theorems quantify over every exit path
  (success, step failure, commit failure, rollback failure, ...).
* A caller-supplied step (`callback` / `operation` in the source) is a
  function of the store returning either a result or a thrown error,
  together with the new pending-write list (its side effects inside the
  open transaction).
* Each manager method returns `(result, world, trace)` where the trace
  is the ordered list of observable driver events of that call
  (connection acquired, transaction started, step invoked, commit,
  rollback, release, savepoint statements, retry delays).  JS
  `try/catch/finally` control flow is translated branch by branch.
-/

/-- The four TypeORM isolation levels accepted by the manager. -/
inductive IsoLevel
  | readUncommitted
  | readCommitted
  | repeatableRead
  | serializable
deriving DecidableEq

/-- A thrown JavaScript error; only its message is inspected by the source. -/
structure JsErr where
  msg : String
deriving DecidableEq

/-- Database state visible through one connection. -/
structure Store where
  committed : List String
  pending : List String
  txActive : Bool
  txLevel : Option IsoLevel
deriving DecidableEq

/-- Fault model for the driver: `none` = operation succeeds,
`some m` = the operation throws a JS error with message `m`. -/
structure Env where
  connectErr : Option String
  startTxErr : Option String
  commitErr : Option String
  rollbackErr : Option String
  spCreateErr : Option String
  spReleaseErr : Option String
  spRollbackErr : Option String
deriving DecidableEq

/-- World threaded through a unit of work: store plus fault model. -/
structure World where
  store : Store
  env : Env
deriving DecidableEq

/-- Observable driver events, in the order the manager issues them. -/
inductive Ev
  | connect
  | startTx (lvl : IsoLevel)
  | commitTx
  | rollbackTx
  | release
  | stepRun (i : Nat)
  | spCreate
  | spRelease
  | spRollback
  | logError (m : String)
  | waitDelay (ms : Nat)
deriving DecidableEq

/-- A caller-supplied step: reads the store, returns a result or a thrown
error, and the new pending-write list of the open transaction. -/
def Step (α : Type) := Store → Except JsErr α × List String

/-- Result of the nested-transaction lookup
`context ? this.activeTransactions.get(context) : null` followed by the
`isTransactionActive` check: either no runner was found for the context,
or one was found with the given activity flag. -/
inductive Ctx
  | noCtx
  | entry (isActive : Bool)
deriving DecidableEq

/-- Effect of `queryRunner.startTransaction(lvl)`: a fresh transaction with
no pending writes, at the requested level. -/
def txStart (lvl : IsoLevel) (st : Store) : Store :=
  { st with pending := [], txActive := true, txLevel := some lvl }

/-- Effect of a successful `queryRunner.rollbackTransaction()`: pending
writes are discarded and the transaction ends. -/
def rollbackStore (st : Store) : Store :=
  { st with pending := [], txActive := false, txLevel := none }

/-- Effect of a successful `queryRunner.commitTransaction()`: pending
writes are published and the transaction ends. -/
def commitStore (st : Store) : Store :=
  { st with committed := st.committed ++ st.pending, pending := [],
            txActive := false, txLevel := none }

/-- The shared `catch`/`finally` tail of `execute` and `executeDependent`
(source lines 56-64 and 160-167), entered with thrown error `orig` while
the runner that started the transaction is in scope:
if the transaction is active, roll it back — and if the rollback itself
throws, that new error propagates instead of `orig` (the `throw error`
line is never reached); the `finally` releases the runner on every path. -/
def txCatchRelease (orig : JsErr) (w : World) (tr : List Ev) :
    Except JsErr β × World × List Ev :=
  if w.store.txActive then
    match w.env.rollbackErr with
    | some m => (Except.error (JsErr.mk m), w, tr ++ [Ev.release])
    | none =>
        (Except.error orig, { w with store := rollbackStore w.store },
         tr ++ [Ev.rollbackTx, Ev.release])
  else
    (Except.error orig, w, tr ++ [Ev.release])

/-- The `catch` block of `executeWithSavepoint` (source lines 87-94):
`ROLLBACK TO SAVEPOINT` is attempted; an error from that statement is
swallowed and logged; the original error `orig` is re-thrown either way.
`saved` is the pending-write list at savepoint creation, restored by a
successful rollback-to-savepoint. -/
def spCatch (orig : JsErr) (saved : List String) (w : World) (tr : List Ev) :
    Except JsErr α × World × List Ev :=
  match w.env.spRollbackErr with
  | some m => (Except.error orig, w, tr ++ [Ev.logError m])
  | none =>
      (Except.error orig, { w with store := { w.store with pending := saved } },
       tr ++ [Ev.spRollback])

/-- Embeds `executeWithSavepoint` (source lines 74-96): create a savepoint, run
the callback, release the savepoint on success; on any error, roll back
to the savepoint (swallowing errors of that statement) and re-throw.
The enclosing transaction is never committed or rolled back here. -/
def executeWithSavepoint (cb : Step α) (w : World) :
    Except JsErr α × World × List Ev :=
  let saved := w.store.pending
  match w.env.spCreateErr with
  | some m => spCatch (JsErr.mk m) saved w []
  | none =>
      let (r, p) := cb w.store
      let w1 : World := { w with store := { w.store with pending := p } }
      let tr := [Ev.spCreate, Ev.stepRun 0]
      match r with
      | Except.ok v =>
          match w1.env.spReleaseErr with
          | some m => spCatch (JsErr.mk m) saved w1 tr
          | none => (Except.ok v, w1, tr ++ [Ev.spRelease])
      | Except.error e => spCatch e saved w1 tr

/-- Embeds `execute` (source lines 28-65).  A fresh query runner is created.  If
the context lookup finds an active transaction, the callback is delegated
to `executeWithSavepoint` on that transaction and the fresh runner — which
never started a transaction, so the `catch` performs no rollback — is
released by the `finally`.  Otherwise: connect, start a transaction at
`lvl`, run the callback, commit on success; any thrown error goes through
the shared catch/finally tail.  (The `activeTransactions.set` call only
affects later lookups and is not part of this call's observable
behaviour; the lookup's outcome is the `ctx` argument.) -/
def execute (cb : Step α) (lvl : IsoLevel) (ctx : Ctx) (w : World) :
    Except JsErr α × World × List Ev :=
  match ctx with
  | Ctx.entry true =>
      let (r, w1, tr) := executeWithSavepoint cb w
      (r, w1, tr ++ [Ev.release])
  | _ =>
      match w.env.connectErr with
      | some m => (Except.error (JsErr.mk m), w, [Ev.release])
      | none =>
          match w.env.startTxErr with
          | some m => (Except.error (JsErr.mk m), w, [Ev.connect, Ev.release])
          | none =>
              let w1 : World := { w with store := txStart lvl w.store }
              let (r, p) := cb w1.store
              let w2 : World := { w1 with store := { w1.store with pending := p } }
              let tr := [Ev.connect, Ev.startTx lvl, Ev.stepRun 0]
              match r with
              | Except.ok v =>
                  match w2.env.commitErr with
                  | some m => txCatchRelease (JsErr.mk m) w2 tr
                  | none =>
                      (Except.ok v, { w2 with store := commitStore w2.store },
                       tr ++ [Ev.commitTx, Ev.release])
              | Except.error e => txCatchRelease e w2 tr

/-- The composite error thrown by `executeDependent` when an operation
fails (source line 154): it embeds the 1-based step index
(`results.length + 1`) and the failing operation's message. -/
def depErr (idx : Nat) (cause : String) : JsErr :=
  JsErr.mk ("Dependent transaction failed at step " ++ toString idx ++ ": " ++ cause)

/-- The `for (const operation of operations)` loop of `executeDependent`
(source lines 146-159), carrying the results accumulated so far (`acc`
mirrors `results`), followed by the commit and the shared catch/finally
tail.  A step failure is wrapped in `depErr` at index `acc.length + 1`
and thrown to the outer catch. -/
def depGo (ops : List (Step α)) (acc : List α) (w : World) (tr : List Ev) :
    Except JsErr (List α) × World × List Ev :=
  match ops with
  | [] =>
      match w.env.commitErr with
      | some m => txCatchRelease (JsErr.mk m) w tr
      | none =>
          (Except.ok acc, { w with store := commitStore w.store },
           tr ++ [Ev.commitTx, Ev.release])
  | op :: rest =>
      let (r, p) := op w.store
      let w1 : World := { w with store := { w.store with pending := p } }
      let tr1 := tr ++ [Ev.stepRun acc.length]
      match r with
      | Except.ok v => depGo rest (acc ++ [v]) w1 tr1
      | Except.error e => txCatchRelease (depErr (acc.length + 1) e.msg) w1 tr1

/-- Embeds `executeDependent` (source lines 136-168): one fresh runner, connect,
one transaction at `lvl`, then the operation loop; it takes no context,
performs no lookup of active transactions and uses no savepoints. -/
def executeDependent (ops : List (Step α)) (lvl : IsoLevel) (w : World) :
    Except JsErr (List α) × World × List Ev :=
  match w.env.connectErr with
  | some m => (Except.error (JsErr.mk m), w, [Ev.release])
  | none =>
      match w.env.startTxErr with
      | some m => (Except.error (JsErr.mk m), w, [Ev.connect, Ev.release])
      | none =>
          depGo ops [] { w with store := txStart lvl w.store }
            [Ev.connect, Ev.startTx lvl]

/-- Character-list version of `a.isPrefixOf b` for the substring search. -/
def leadsWith : List Char → List Char → Bool
  | [], _ => true
  | _ :: _, [] => false
  | a :: as, b :: bs => (a == b) && leadsWith as bs

/-- Substring test, as `haystack.includes(needle)`, on character lists. -/
def containsSub (needle : List Char) : List Char → Bool
  | [] => needle.isEmpty
  | c :: cs => leadsWith needle (c :: cs) || containsSub needle cs

/-- Lower-cased character list of a string (`message.toLowerCase()`). -/
def toLowerChars (s : String) : List Char := s.data.map Char.toLower

/-- Embeds `isDeadlockError` (source lines 175-180): the lower-cased message is
searched for the substrings `deadlock`, `wait-for graph` and `1213`. -/
def isDeadlockError (e : JsErr) : Bool :=
  let m := toLowerChars e.msg
  containsSub "deadlock".data m ||
  containsSub "wait-for graph".data m ||
  containsSub "1213".data m

/-- Backoff delay `retryDelayMs * Math.pow(2, attempt - 1)` (source line 119). -/
def retryDelay (base attempt : Nat) : Nat := base * 2 ^ (attempt - 1)

/-- The `for (let attempt = 1; attempt <= this.maxRetries; attempt++)`
loop of `executeWithRetry` (source lines 111-124), with
`remaining = maxRetries - attempt` so that `attempt < maxRetries` is
`remaining > 0`.  A failed attempt is retried after the backoff delay
only when `isDeadlockError` classifies it and attempts remain. -/
def retryGo (cb : Step α) (lvl : IsoLevel) (base : Nat) :
    Nat → Nat → World → Except JsErr α × World × List Ev
  | attempt, remaining, w =>
    match execute cb lvl Ctx.noCtx w with
    | (Except.ok v, w1, tr) => (Except.ok v, w1, tr)
    | (Except.error e, w1, tr) =>
        match remaining with
        | 0 => (Except.error e, w1, tr)
        | r + 1 =>
            if isDeadlockError e then
              let d := retryDelay base attempt
              let (res, w2, tr2) := retryGo cb lvl base (attempt + 1) r w1
              (res, w2, tr ++ [Ev.waitDelay d] ++ tr2)
            else (Except.error e, w1, tr)

/-- Embeds `executeWithRetry` (source lines 105-127) with the manager's
`maxRetries` and `retryDelayMs` fields as arguments.  If `maxRetries` is
zero the loop body never runs and `lastError` is still null, so the
fallback error is thrown; otherwise the loop starts at attempt 1. -/
def executeWithRetry (cb : Step α) (lvl : IsoLevel)
    (maxRetries base : Nat) (w : World) :
    Except JsErr α × World × List Ev :=
  match maxRetries with
  | 0 => (Except.error (JsErr.mk "Transaction failed after retries"), w, [])
  | n + 1 => retryGo cb lvl base 1 n w

/-- Default `maxRetries` field of the manager (source line 16). -/
def defaultMaxRetries : Nat := 3

/-- Default `retryDelayMs` field of the manager (source line 17). -/
def defaultRetryDelayMs : Nat := 100

/-- Default isolation level field of the manager (source line 14). -/
def defaultIsolationLevel : IsoLevel := IsoLevel.readCommitted

/-!
## Verification layer

`runSteps` is the sequential reference semantics of the operation loop:
it runs the steps in order on the store, and reports either all results
with the final store, or the 0-based index of the first failing step
with its thrown error and the store at that point.
-/

/-- Sequential reference run of a step list (all results, or first
failure index with its error). -/
def runSteps (ops : List (Step α)) (st : Store) :
    (List α × Store) ⊕ (Nat × JsErr × Store) :=
  match ops with
  | [] => Sum.inl ([], st)
  | op :: rest =>
      let (r, p) := op st
      let st1 : Store := { st with pending := p }
      match r with
      | Except.error e => Sum.inr (0, e, st1)
      | Except.ok v =>
          match runSteps rest st1 with
          | Sum.inl (vs, st2) => Sum.inl (v :: vs, st2)
          | Sum.inr (i, e, st2) => Sum.inr (i + 1, e, st2)

/-- The step-invocation events `stepRun a, stepRun (a+1), ...` (`n` of
them), as emitted by the operation loop starting at accumulator length
`a`. -/
def stepEvs (a : Nat) : Nat → List Ev
  | 0 => []
  | n + 1 => Ev.stepRun a :: stepEvs (a + 1) n

/-- Number of `release` events in a trace. -/
def relCount (tr : List Ev) : Nat := tr.count Ev.release

/-- Number of step invocations in a trace. -/
def stepCount (tr : List Ev) : Nat :=
  (tr.filter (fun e => match e with | Ev.stepRun _ => true | _ => false)).length

/-- The backoff delays recorded in a trace, in order. -/
def delaysOf (tr : List Ev) : List Nat :=
  tr.filterMap (fun e => match e with | Ev.waitDelay d => some d | _ => none)

theorem mem_stepEvs (j a n : Nat) :
    Ev.stepRun j ∈ stepEvs a n ↔ a ≤ j ∧ j < a + n := by
  induction n generalizing a with
  | zero => simp [stepEvs]
  | succ n ih => simp [stepEvs, ih]; omega

theorem stepEvs_shape (a n : Nat) :
    ∀ e ∈ stepEvs a n, ∃ j, e = Ev.stepRun j := by
  induction n generalizing a with
  | zero => simp [stepEvs]
  | succ n ih =>
      intro e he
      rw [stepEvs] at he
      rcases List.mem_cons.mp he with h | h
      · exact ⟨a, h⟩
      · exact ih (a + 1) e h

theorem runSteps_inl_invar (ops : List (Step α)) (st : Store) (vs : List α)
    (st' : Store) (h : runSteps ops st = Sum.inl (vs, st')) :
    vs.length = ops.length ∧ st'.committed = st.committed ∧
    st'.txActive = st.txActive ∧ st'.txLevel = st.txLevel := by
  induction ops generalizing st vs with
  | nil =>
      simp [runSteps] at h
      obtain ⟨h1, h2⟩ := h
      subst h1; subst h2
      simp
  | cons op rest ih =>
      rw [runSteps] at h
      rcases hop : op st with ⟨r, p⟩
      rw [hop] at h
      cases r with
      | error e => simp at h
      | ok v =>
          simp only at h
          rcases hrs : runSteps rest { st with pending := p } with ⟨vs2, st2⟩ | ⟨i2, e2, st2⟩
          · rw [hrs] at h
            simp at h
            obtain ⟨h1, h2⟩ := h
            subst h2
            have := ih { st with pending := p } vs2 hrs
            simp at this
            subst h1
            simpa using this
          · rw [hrs] at h; simp at h

theorem runSteps_inr_invar (ops : List (Step α)) (st : Store) (i : Nat)
    (e : JsErr) (st' : Store) (h : runSteps ops st = Sum.inr (i, e, st')) :
    i < ops.length ∧ st'.committed = st.committed ∧
    st'.txActive = st.txActive ∧ st'.txLevel = st.txLevel := by
  induction ops generalizing st i with
  | nil => simp [runSteps] at h
  | cons op rest ih =>
      rw [runSteps] at h
      rcases hop : op st with ⟨r, p⟩
      rw [hop] at h
      cases r with
      | error e2 =>
          simp at h
          obtain ⟨h1, h2, h3⟩ := h
          subst h1; subst h3
          simp
      | ok v =>
          simp only at h
          rcases hrs : runSteps rest { st with pending := p } with ⟨vs2, st2⟩ | ⟨i2, e2, st2⟩
          · rw [hrs] at h; simp at h
          · rw [hrs] at h
            simp only [Sum.inr.injEq, Prod.mk.injEq] at h
            obtain ⟨h1, h2, h3⟩ := h
            subst h2; subst h3; subst h1
            have hx := ih { st with pending := p } i2 hrs
            simp only [List.length_cons]
            simp only at hx
            exact ⟨by omega, hx.2.1, hx.2.2.1, hx.2.2.2⟩


theorem relCount_append (a b : List Ev) :
    relCount (a ++ b) = relCount a + relCount b := by
  simp [relCount, List.count_append]

theorem stepCount_append (a b : List Ev) :
    stepCount (a ++ b) = stepCount a + stepCount b := by
  simp [stepCount, List.filter_append]

theorem delaysOf_append (a b : List Ev) :
    delaysOf (a ++ b) = delaysOf a ++ delaysOf b := by
  simp [delaysOf, List.filterMap_append]

/-- Every path of the shared catch/finally tail appends exactly one
`release` event. -/
theorem txCatchRelease_relCount (orig : JsErr) (w : World) (tr : List Ev) :
    relCount (txCatchRelease (β := β) orig w tr).2.2 = relCount tr + 1 := by
  unfold txCatchRelease
  have h1 : relCount [Ev.release] = 1 := rfl
  have h2 : relCount [Ev.rollbackTx, Ev.release] = 1 := rfl
  split
  · split <;> simp [relCount_append, h1, h2]
  · simp [relCount_append, h1]

/-- The catch/finally tail always propagates an error. -/
theorem txCatchRelease_isError (orig : JsErr) (w : World) (tr : List Ev) :
    ∃ e, (txCatchRelease (β := β) orig w tr).1 = Except.error e := by
  unfold txCatchRelease
  split
  · split
    · exact ⟨_, rfl⟩
    · exact ⟨_, rfl⟩
  · exact ⟨orig, rfl⟩

/-- Events appended by the catch/finally tail are only rollback/release. -/
theorem txCatchRelease_trace_shape (orig : JsErr) (w : World) (tr : List Ev) :
    ∀ e ∈ (txCatchRelease (β := β) orig w tr).2.2,
      e ∈ tr ∨ e = Ev.rollbackTx ∨ e = Ev.release := by
  unfold txCatchRelease
  split
  · split <;>
      (intro e he
       simp only [List.mem_append, List.mem_cons, List.not_mem_nil, or_false] at he
       tauto)
  · intro e he
    simp only [List.mem_append, List.mem_cons, List.not_mem_nil, or_false] at he
    tauto

/-- Reduction of the loop when the reference run reports a first failure
at 0-based index `i`: exactly the steps `0..i` (relative to the
accumulator) are invoked, and the composite error at 1-based index
`acc.length + i + 1` is handed to the catch/finally tail together with
the store as the failing step left it. -/
theorem depGo_inr (ops : List (Step α)) (i : Nat) (e : JsErr) (st' : Store)
    (acc : List α) (w : World) (tr : List Ev)
    (h : runSteps ops w.store = Sum.inr (i, e, st')) :
    depGo ops acc w tr =
      txCatchRelease (depErr (acc.length + i + 1) e.msg) ⟨st', w.env⟩
        (tr ++ stepEvs acc.length (i + 1)) := by
  induction ops generalizing i acc w tr with
  | nil => simp [runSteps] at h
  | cons op rest ih =>
      rcases hop : op w.store with ⟨r, p⟩
      rw [runSteps] at h
      rw [hop] at h
      cases r with
      | error e2 =>
          simp only [Sum.inr.injEq, Prod.mk.injEq] at h
          obtain ⟨h1, h2, h3⟩ := h
          subst h1; subst h2; subst h3
          simp [depGo, hop, stepEvs]
      | ok v =>
          simp only at h
          rcases hrs : runSteps rest { w.store with pending := p } with ⟨vs2, st2⟩ | ⟨i2, e2, st2⟩
          · rw [hrs] at h; simp at h
          · rw [hrs] at h
            simp only [Sum.inr.injEq, Prod.mk.injEq] at h
            obtain ⟨h1, h2, h3⟩ := h
            subst h2; subst h3; subst h1
            have hx := ih i2 (acc ++ [v])
              { w with store := { w.store with pending := p } }
              (tr ++ [Ev.stepRun acc.length]) hrs
            have hunfold : depGo (op :: rest) acc w tr
                = depGo rest (acc ++ [v])
                    { w with store := { w.store with pending := p } }
                    (tr ++ [Ev.stepRun acc.length]) := by
              simp only [depGo, hop]
            have e0 : (acc ++ [v]).length = acc.length + 1 := by simp
            have e1 : acc.length + 1 + i2 + 1 = acc.length + (i2 + 1) + 1 := by omega
            rw [e0, e1] at hx
            have e2 : (tr ++ [Ev.stepRun acc.length]) ++ stepEvs (acc.length + 1) (i2 + 1)
                = tr ++ stepEvs acc.length (i2 + 1 + 1) := by
              simp [stepEvs, List.append_assoc]
            rw [e2] at hx
            rw [hunfold, hx]

/-- Reduction of the loop when the reference run succeeds on all steps:
every step is invoked in order and the loop finishes with the final
store and all results accumulated, ready for the commit. -/
theorem depGo_inl (ops : List (Step α)) (vs : List α) (st' : Store)
    (acc : List α) (w : World) (tr : List Ev)
    (h : runSteps ops w.store = Sum.inl (vs, st')) :
    depGo ops acc w tr =
      depGo [] (acc ++ vs) ⟨st', w.env⟩ (tr ++ stepEvs acc.length ops.length) := by
  induction ops generalizing vs acc w tr with
  | nil =>
      simp only [runSteps, Sum.inl.injEq, Prod.mk.injEq] at h
      obtain ⟨h1, h2⟩ := h
      subst h1; subst h2
      simp [stepEvs]
  | cons op rest ih =>
      rcases hop : op w.store with ⟨r, p⟩
      rw [runSteps] at h
      rw [hop] at h
      cases r with
      | error e2 => simp at h
      | ok v =>
          simp only at h
          rcases hrs : runSteps rest { w.store with pending := p } with ⟨vs2, st2⟩ | ⟨i2, e2, st2⟩
          · rw [hrs] at h
            simp only [Sum.inl.injEq, Prod.mk.injEq] at h
            obtain ⟨h1, h2⟩ := h
            subst h1; subst h2
            have hx := ih vs2 (acc ++ [v])
              { w with store := { w.store with pending := p } }
              (tr ++ [Ev.stepRun acc.length]) hrs
            have hunfold : depGo (op :: rest) acc w tr
                = depGo rest (acc ++ [v])
                    { w with store := { w.store with pending := p } }
                    (tr ++ [Ev.stepRun acc.length]) := by
              simp only [depGo, hop]
            have e0 : (acc ++ [v]).length = acc.length + 1 := by simp
            rw [e0] at hx
            have e1 : (acc ++ [v]) ++ vs2 = acc ++ v :: vs2 := by simp
            rw [e1] at hx
            have e2 : (tr ++ [Ev.stepRun acc.length]) ++ stepEvs (acc.length + 1) rest.length
                = tr ++ stepEvs acc.length (rest.length + 1) := by
              simp [stepEvs, List.append_assoc]
            rw [e2] at hx
            rw [hunfold, hx]
            rfl
          · rw [hrs] at h; simp at h

instance [DecidableEq ε] [DecidableEq α] : DecidableEq (Except ε α) := fun x y =>
  match x, y with
  | Except.ok a, Except.ok b =>
      if h : a = b then isTrue (by rw [h]) else isFalse (fun hc => h (Except.ok.inj hc))
  | Except.error a, Except.error b =>
      if h : a = b then isTrue (by rw [h]) else isFalse (fun hc => h (Except.error.inj hc))
  | Except.ok _, Except.error _ => isFalse (fun hc => Except.noConfusion hc)
  | Except.error _, Except.ok _ => isFalse (fun hc => Except.noConfusion hc)

theorem relCount_stepEvs (a n : Nat) : relCount (stepEvs a n) = 0 := by
  induction n generalizing a with
  | zero => rfl
  | succ n ih =>
      have h : stepEvs a (n + 1) = [Ev.stepRun a] ++ stepEvs (a + 1) n := rfl
      rw [h, relCount_append, ih]
      simp [relCount]

/-- When connect and start-transaction succeed, `executeDependent` is the
operation loop started on the fresh transaction. -/
theorem executeDependent_eq (ops : List (Step α)) (lvl : IsoLevel) (w : World)
    (hc : w.env.connectErr = none) (hs : w.env.startTxErr = none) :
    executeDependent ops lvl w =
      depGo ops [] { w with store := txStart lvl w.store }
        [Ev.connect, Ev.startTx lvl] := by
  unfold executeDependent
  rw [hc, hs]

/-- One failed top-level attempt of `execute`: connect and begin succeed,
the callback throws, the transaction (active since `startTransaction`)
is rolled back, the runner is released, and the callback's error
propagates. -/
theorem execute_attempt_fail (cb : Step α) (lvl : IsoLevel) (w : World)
    (hc : w.env.connectErr = none) (hs : w.env.startTxErr = none)
    (hr : w.env.rollbackErr = none) (e : JsErr) (p : List String)
    (hcb : cb (txStart lvl w.store) = (Except.error e, p)) :
    execute cb lvl Ctx.noCtx w =
      (Except.error e,
       { store := rollbackStore { txStart lvl w.store with pending := p },
         env := w.env },
       [Ev.connect, Ev.startTx lvl, Ev.stepRun 0, Ev.rollbackTx, Ev.release]) := by
  unfold execute
  rw [hc, hs]
  simp only [txStart] at hcb
  simp only [hcb, txCatchRelease, txStart, rollbackStore, hr]
  simp

/-! ## Concrete worlds and steps used as witnesses -/

/-- Fault-free environment: every driver operation succeeds. -/
def benv : Env :=
  { connectErr := none, startTxErr := none, commitErr := none,
    rollbackErr := none, spCreateErr := none, spReleaseErr := none,
    spRollbackErr := none }

/-- Fault-free world over an empty store. -/
def w0 : World :=
  { store := { committed := [], pending := [], txActive := false, txLevel := none },
    env := benv }

/-- A step that succeeds with result `ra`, appending the write `wa`. -/
def stepOkA : Step String := fun st => (Except.ok "ra", st.pending ++ ["wa"])

/-- A step that succeeds with result `rb`, appending the write `wb`. -/
def stepOkB : Step String := fun st => (Except.ok "rb", st.pending ++ ["wb"])

/-- A step that throws `boom` after overwriting the pending writes. -/
def stepFailC : Step String := fun _ => (Except.error (JsErr.mk "boom"), ["junk"])

/-- Step list whose first failure is at 0-based index 1. -/
def demoOps3 : List (Step String) := [stepOkA, stepFailC, stepOkB]

/-- C1.  For every step list of length N passed to `executeDependent`, a
successful return carries exactly N results, and those results are the
outputs of the steps run sequentially in input order (the reference run
`runSteps`); any other outcome is a propagated failure carrying no
results (the return type of the embedding allows nothing in between,
mirroring the source, which only returns `results` after the loop over
all operations and the commit both finish). -/
theorem executeDependent_all_or_nothing {α : Type} (ops : List (Step α))
    (lvl : IsoLevel) (w : World) (rs : List α)
    (h : (executeDependent ops lvl w).1 = Except.ok rs) :
    rs.length = ops.length ∧
    ∃ st', runSteps ops (txStart lvl w.store) = Sum.inl (rs, st') := by
  cases hc : w.env.connectErr with
  | some m =>
      unfold executeDependent at h
      rw [hc] at h
      simp at h
  | none =>
      cases hs : w.env.startTxErr with
      | some m =>
          unfold executeDependent at h
          rw [hc, hs] at h
          simp at h
      | none =>
          rw [executeDependent_eq ops lvl w hc hs] at h
          rcases hrs : runSteps ops (txStart lvl w.store) with ⟨vs, st'⟩ | ⟨i, e, st'⟩
          · have hd := depGo_inl ops vs st' []
              { w with store := txStart lvl w.store }
              [Ev.connect, Ev.startTx lvl] hrs
            rw [hd] at h
            simp only [List.nil_append, List.length_nil] at h
            cases hcm : w.env.commitErr with
            | some m =>
                simp only [depGo, hcm] at h
                obtain ⟨e2, he2⟩ := txCatchRelease_isError (β := List α)
                  (JsErr.mk m) { store := st', env := w.env }
                  ([Ev.connect, Ev.startTx lvl] ++ stepEvs 0 ops.length)
                rw [he2] at h
                simp at h
            | none =>
                simp only [depGo, hcm] at h
                simp at h
                subst h
                have hinv := runSteps_inl_invar ops (txStart lvl w.store) vs st' hrs
                exact ⟨hinv.1, st', rfl⟩
          · have hd := depGo_inr ops i e st' []
              { w with store := txStart lvl w.store }
              [Ev.connect, Ev.startTx lvl] hrs
            rw [hd] at h
            simp only [List.length_nil, Nat.zero_add] at h
            obtain ⟨e2, he2⟩ := txCatchRelease_isError (β := List α)
              (depErr (i + 1) e.msg) { store := st', env := w.env }
              ([Ev.connect, Ev.startTx lvl] ++ stepEvs 0 (i + 1))
            rw [he2] at h
            simp at h

/-- Witness for C1: a two-step list yields exactly its two results. -/
theorem executeDependent_all_or_nothing_witness :
    (executeDependent [stepOkA, stepOkB] IsoLevel.readCommitted w0).1
        = Except.ok ["ra", "rb"] ∧
    (["ra", "rb"] : List String).length = [stepOkA, stepOkB].length ∧
    ∃ st', runSteps [stepOkA, stepOkB]
        (txStart IsoLevel.readCommitted w0.store) = Sum.inl (["ra", "rb"], st') := by
  have h : (executeDependent [stepOkA, stepOkB] IsoLevel.readCommitted w0).1
      = Except.ok ["ra", "rb"] := rfl
  have hc := executeDependent_all_or_nothing [stepOkA, stepOkB]
    IsoLevel.readCommitted w0 ["ra", "rb"] h
  exact ⟨h, hc.1, hc.2⟩

/-- The catch/finally tail when the transaction is active and the
rollback succeeds: the original error propagates after rollback and
release. -/
theorem txCatchRelease_rollback_ok (orig : JsErr) (w : World) (tr : List Ev)
    (hact : w.store.txActive = true) (hr : w.env.rollbackErr = none) :
    txCatchRelease (β := β) orig w tr =
      (Except.error orig, { w with store := rollbackStore w.store },
       tr ++ [Ev.rollbackTx, Ev.release]) := by
  unfold txCatchRelease
  rw [if_pos hact, hr]

/-- The catch/finally tail when the transaction is active but the
rollback itself throws: the release still happens, and the rollback
error replaces the original error. -/
theorem txCatchRelease_rollback_fails (orig : JsErr) (w : World) (tr : List Ev)
    (m : String) (hact : w.store.txActive = true)
    (hr : w.env.rollbackErr = some m) :
    txCatchRelease (β := β) orig w tr =
      (Except.error (JsErr.mk m), w, tr ++ [Ev.release]) := by
  unfold txCatchRelease
  rw [if_pos hact, hr]

/-- C2.  If the reference run of the step list first fails at 0-based
index `i` (so steps `0..i-1` succeeded and step `i` threw), then in
`executeDependent` no step after index `i` is ever invoked, every step up
to and including `i` is invoked, the transaction is rolled back (the
committed store is unchanged, no transaction is left open, and the
pending writes of the succeeded steps are discarded), and the call
propagates an error. -/
theorem executeDependent_stops_at_first_failure {α : Type}
    (ops : List (Step α)) (lvl : IsoLevel) (w : World)
    (i : Nat) (e : JsErr) (st' : Store)
    (hc : w.env.connectErr = none) (hs : w.env.startTxErr = none)
    (hr : w.env.rollbackErr = none)
    (hrun : runSteps ops (txStart lvl w.store) = Sum.inr (i, e, st')) :
    (∀ j, i < j → Ev.stepRun j ∉ (executeDependent ops lvl w).2.2) ∧
    (∀ j, j ≤ i → Ev.stepRun j ∈ (executeDependent ops lvl w).2.2) ∧
    Ev.rollbackTx ∈ (executeDependent ops lvl w).2.2 ∧
    (executeDependent ops lvl w).2.1.store.committed = w.store.committed ∧
    (executeDependent ops lvl w).2.1.store.txActive = false ∧
    (executeDependent ops lvl w).2.1.store.pending = [] ∧
    ∃ e2, (executeDependent ops lvl w).1 = Except.error e2 := by
  have hinv := runSteps_inr_invar ops (txStart lvl w.store) i e st' hrun
  have hact : st'.txActive = true := by
    rw [hinv.2.2.1]
    rfl
  have hcom : st'.committed = w.store.committed := by
    rw [hinv.2.1]
    rfl
  rw [executeDependent_eq ops lvl w hc hs]
  have hd := depGo_inr ops i e st' []
    { w with store := txStart lvl w.store }
    [Ev.connect, Ev.startTx lvl] hrun
  simp only [List.length_nil, Nat.zero_add] at hd
  rw [hd, txCatchRelease_rollback_ok (depErr (i + 1) e.msg)
    { store := st', env := w.env }
    ([Ev.connect, Ev.startTx lvl] ++ stepEvs 0 (i + 1)) hact hr]
  refine ⟨?_, ?_, ?_, ?_, ?_, ?_, ?_⟩
  · intro j hj hmem
    simp [mem_stepEvs] at hmem
    omega
  · intro j hj
    simp [mem_stepEvs]
    omega
  · simp
  · simp [rollbackStore, hcom]
  · simp [rollbackStore]
  · simp [rollbackStore]
  · exact ⟨_, rfl⟩

/-- Witness for C2: with steps `[ok, fail, ok]`, step 2 is never invoked,
steps 0 and 1 are, the transaction is rolled back, and nothing reaches
the committed store. -/
theorem executeDependent_stops_at_first_failure_witness :
    Ev.stepRun 2 ∉ (executeDependent demoOps3 IsoLevel.readCommitted w0).2.2 ∧
    Ev.stepRun 1 ∈ (executeDependent demoOps3 IsoLevel.readCommitted w0).2.2 ∧
    Ev.stepRun 0 ∈ (executeDependent demoOps3 IsoLevel.readCommitted w0).2.2 ∧
    Ev.rollbackTx ∈ (executeDependent demoOps3 IsoLevel.readCommitted w0).2.2 ∧
    (executeDependent demoOps3 IsoLevel.readCommitted w0).2.1.store.committed
      = w0.store.committed := by
  have h := executeDependent_stops_at_first_failure demoOps3
    IsoLevel.readCommitted w0 1 (JsErr.mk "boom")
    { committed := [], pending := ["junk"], txActive := true,
      txLevel := some IsoLevel.readCommitted }
    rfl rfl rfl rfl
  exact ⟨h.1 2 (by omega), h.2.1 1 (by omega), h.2.1 0 (by omega),
    h.2.2.1, h.2.2.2.1⟩

/-- C3.  When `executeDependent` fails because step `i` (0-based) was the
first to throw, and the rollback succeeds so that the loop's own error
reaches the caller, the propagated error is exactly the composite error
built by the source at that step: it carries the 1-based index `i + 1`
of the failing step together with the failing step's underlying message. -/
theorem executeDependent_error_carries_index {α : Type}
    (ops : List (Step α)) (lvl : IsoLevel) (w : World)
    (i : Nat) (e : JsErr) (st' : Store)
    (hc : w.env.connectErr = none) (hs : w.env.startTxErr = none)
    (hr : w.env.rollbackErr = none)
    (hrun : runSteps ops (txStart lvl w.store) = Sum.inr (i, e, st')) :
    (executeDependent ops lvl w).1 = Except.error (depErr (i + 1) e.msg) := by
  have hinv := runSteps_inr_invar ops (txStart lvl w.store) i e st' hrun
  have hact : st'.txActive = true := by
    rw [hinv.2.2.1]
    rfl
  rw [executeDependent_eq ops lvl w hc hs]
  have hd := depGo_inr ops i e st' []
    { w with store := txStart lvl w.store }
    [Ev.connect, Ev.startTx lvl] hrun
  simp only [List.length_nil, Nat.zero_add] at hd
  rw [hd, txCatchRelease_rollback_ok (depErr (i + 1) e.msg)
    { store := st', env := w.env }
    ([Ev.connect, Ev.startTx lvl] ++ stepEvs 0 (i + 1)) hact hr]

/-- Witness for C3: the failure of `demoOps3` at 0-based index 1 is
reported as the composite error naming 1-based step 2 and cause `boom`. -/
theorem executeDependent_error_carries_index_witness :
    (executeDependent demoOps3 IsoLevel.readCommitted w0).1
      = Except.error (JsErr.mk "Dependent transaction failed at step 2: boom") := by
  have h := executeDependent_error_carries_index demoOps3
    IsoLevel.readCommitted w0 1 (JsErr.mk "boom")
    { committed := [], pending := ["junk"], txActive := true,
      txLevel := some IsoLevel.readCommitted }
    rfl rfl rfl rfl
  exact h

theorem relCount_attempt (lvl : IsoLevel) (n : Nat) :
    relCount ([Ev.connect, Ev.startTx lvl] ++ stepEvs 0 n) = 0 := by
  rw [relCount_append, relCount_stepEvs]
  cases lvl <;> rfl

/-- World for the C4 counterexample: the store's rollback statement
throws `rollback exploded`. -/
def w4 : World :=
  { store := { committed := [], pending := [], txActive := false, txLevel := none },
    env := { benv with rollbackErr := some "rollback exploded" } }

/-- Counterexample to C4 as stated.  With a callback that throws `boom`
and a rollback that itself throws `rollback exploded`, the error
propagated to the caller by `execute` is the rollback error — not the
original step failure, which is lost entirely (the source's catch block
runs `rollbackTransaction()` unguarded before `throw error`).  The
release still happens exactly once. -/
theorem rollback_failure_masking_counterexample :
    (execute stepFailC IsoLevel.readCommitted Ctx.noCtx w4).1
        = Except.error (JsErr.mk "rollback exploded") ∧
    (execute stepFailC IsoLevel.readCommitted Ctx.noCtx w4).1
        ≠ Except.error (JsErr.mk "boom") ∧
    relCount (execute stepFailC IsoLevel.readCommitted Ctx.noCtx w4).2.2 = 1 := by
  refine ⟨rfl, ?_, rfl⟩
  decide

/-- C4 (amended).  If a step fails and the subsequent rollback of the
transaction itself also fails, then — in both `execute` and
`executeDependent` — the connection is still released (exactly once),
but the error propagated to the caller is the rollback error, which
replaces (masks) the original step failure instead of being attached as
secondary context. -/
theorem rollback_failure_masks_and_releases {α : Type} (cb : Step α)
    (ops : List (Step α)) (lvl : IsoLevel) (w : World) (m : String)
    (e : JsErr) (p : List String) (i : Nat) (e2 : JsErr) (st' : Store)
    (hc : w.env.connectErr = none) (hs : w.env.startTxErr = none)
    (hr : w.env.rollbackErr = some m)
    (hcb : cb (txStart lvl w.store) = (Except.error e, p))
    (hrun : runSteps ops (txStart lvl w.store) = Sum.inr (i, e2, st')) :
    (execute cb lvl Ctx.noCtx w).1 = Except.error (JsErr.mk m) ∧
    relCount (execute cb lvl Ctx.noCtx w).2.2 = 1 ∧
    (executeDependent ops lvl w).1 = Except.error (JsErr.mk m) ∧
    relCount (executeDependent ops lvl w).2.2 = 1 := by
  have hinv := runSteps_inr_invar ops (txStart lvl w.store) i e2 st' hrun
  have hact : st'.txActive = true := by
    rw [hinv.2.2.1]
    rfl
  have hexec : execute cb lvl Ctx.noCtx w =
      txCatchRelease e
        { store := { txStart lvl w.store with pending := p }, env := w.env }
        [Ev.connect, Ev.startTx lvl, Ev.stepRun 0] := by
    unfold execute
    rw [hc, hs]
    simp only [txStart] at hcb
    simp only [hcb, txStart]
  have hacte : ({ txStart lvl w.store with pending := p } : Store).txActive
      = true := rfl
  rw [hexec, txCatchRelease_rollback_fails e
    { store := { txStart lvl w.store with pending := p }, env := w.env }
    [Ev.connect, Ev.startTx lvl, Ev.stepRun 0] m hacte hr]
  have hdep := executeDependent_eq ops lvl w hc hs
  have hd := depGo_inr ops i e2 st' []
    { w with store := txStart lvl w.store }
    [Ev.connect, Ev.startTx lvl] hrun
  simp only [List.length_nil, Nat.zero_add] at hd
  rw [hdep, hd, txCatchRelease_rollback_fails (depErr (i + 1) e2.msg)
    { store := st', env := w.env }
    ([Ev.connect, Ev.startTx lvl] ++ stepEvs 0 (i + 1)) m hact hr]
  refine ⟨rfl, ?_, rfl, ?_⟩
  · have h1 : relCount [Ev.connect, Ev.startTx lvl, Ev.stepRun 0] = 0 := by
      cases lvl <;> rfl
    rw [relCount_append, h1]
    rfl
  · rw [relCount_append, relCount_attempt]
    rfl

/-- Witness for amended C4, at the concrete world `w4`. -/
theorem rollback_failure_masks_and_releases_witness :
    (execute stepFailC IsoLevel.readCommitted Ctx.noCtx w4).1
        = Except.error (JsErr.mk "rollback exploded") ∧
    relCount (execute stepFailC IsoLevel.readCommitted Ctx.noCtx w4).2.2 = 1 ∧
    (executeDependent demoOps3 IsoLevel.readCommitted w4).1
        = Except.error (JsErr.mk "rollback exploded") ∧
    relCount (executeDependent demoOps3 IsoLevel.readCommitted w4).2.2 = 1 := by
  exact rollback_failure_masks_and_releases stepFailC demoOps3
    IsoLevel.readCommitted w4 "rollback exploded"
    (JsErr.mk "boom") ["junk"] 1 (JsErr.mk "boom")
    { committed := [], pending := ["junk"], txActive := true,
      txLevel := some IsoLevel.readCommitted }
    rfl rfl rfl rfl rfl

/-- One retry iteration: the attempt fails with a deadlock-classified
error while retries remain, so the loop waits the backoff delay for this
attempt and continues with the next attempt. -/
theorem retryGo_retry (cb : Step α) (lvl : IsoLevel)
    (base attempt remaining r : Nat) (w : World)
    (e : JsErr) (w' : World) (tr : List Ev)
    (hrem : remaining = r + 1)
    (hex : execute cb lvl Ctx.noCtx w = (Except.error e, w', tr))
    (hdl : isDeadlockError e = true) :
    retryGo cb lvl base attempt remaining w =
      ((retryGo cb lvl base (attempt + 1) r w').1,
       (retryGo cb lvl base (attempt + 1) r w').2.1,
       tr ++ [Ev.waitDelay (retryDelay base attempt)]
          ++ (retryGo cb lvl base (attempt + 1) r w').2.2) := by
  subst hrem
  rw [retryGo, hex]
  simp only [hdl, if_true]

/-- The final retry iteration: the attempt fails with no retries left
(`attempt = maxRetries`), so the error propagates at once — with no
further delay. -/
theorem retryGo_last_fail (cb : Step α) (lvl : IsoLevel)
    (base attempt : Nat) (w : World)
    (e : JsErr) (w' : World) (tr : List Ev)
    (hex : execute cb lvl Ctx.noCtx w = (Except.error e, w', tr)) :
    retryGo cb lvl base attempt 0 w = (Except.error e, w', tr) := by
  rw [retryGo, hex]

/-- A step that always throws the MySQL deadlock error message. -/
def deadlockStep : Step Unit := fun st =>
  (Except.error (JsErr.mk "Deadlock found when trying to get lock; try restarting transaction"),
   st.pending)

/-- Counterexample to C5 as stated.  Under the default configuration
(3 attempts, base delay 100) with a step that always raises a deadlock
conflict, `executeWithRetry` does invoke the step exactly 3 times, but
the delays between attempts are `[100, 200]` — two delays, not the
claimed `base, 2*base, 4*base`: no wait of `4*base` ever happens,
because after the final failed attempt the error propagates at once. -/
theorem retry_delay_list_counterexample :
    stepCount (executeWithRetry deadlockStep IsoLevel.readCommitted
      defaultMaxRetries defaultRetryDelayMs w0).2.2 = 3 ∧
    delaysOf (executeWithRetry deadlockStep IsoLevel.readCommitted
      defaultMaxRetries defaultRetryDelayMs w0).2.2 = [100, 200] ∧
    delaysOf (executeWithRetry deadlockStep IsoLevel.readCommitted
      defaultMaxRetries defaultRetryDelayMs w0).2.2
      ≠ [100, 200, 400] := by
  refine ⟨by decide, by decide, by decide⟩

/-- The step-invocation count of one failed-attempt trace. -/
theorem stepCount_attempt (l : IsoLevel) :
    stepCount [Ev.connect, Ev.startTx l, Ev.stepRun 0, Ev.rollbackTx, Ev.release] = 1 := by
  cases l <;> rfl

/-- One failed-attempt trace records no backoff delays. -/
theorem delaysOf_attempt (l : IsoLevel) :
    delaysOf [Ev.connect, Ev.startTx l, Ev.stepRun 0, Ev.rollbackTx, Ev.release] = [] := by
  cases l <;> rfl

/-- Helper: with an attempt budget of 3, a step that always raises a
deadlock-classified failure is invoked 3 times, with backoff delays
`base` and `2*base` between the attempts, and the failure propagates. -/
theorem retryDeadlockThreeAttempts {α : Type} (cb : Step α)
    (lvl : IsoLevel) (w : World) (b : Nat)
    (hc : w.env.connectErr = none) (hs : w.env.startTxErr = none)
    (hr : w.env.rollbackErr = none)
    (hcb : ∀ st : Store, ∃ e p, cb st = (Except.error e, p) ∧
      isDeadlockError e = true) :
    stepCount (executeWithRetry cb lvl 3 b w).2.2 = 3 ∧
    delaysOf (executeWithRetry cb lvl 3 b w).2.2 = [b, 2 * b] ∧
    ∃ e, (executeWithRetry cb lvl 3 b w).1 = Except.error e := by
  obtain ⟨e1, p1, hcb1, hdl1⟩ := hcb (txStart lvl w.store)
  have hex1 := execute_attempt_fail cb lvl w hc hs hr e1 p1 hcb1
  obtain ⟨e2, p2, hcb2, hdl2⟩ := hcb (txStart lvl
    (rollbackStore { txStart lvl w.store with pending := p1 }))
  have hex2 := execute_attempt_fail cb lvl
    { store := rollbackStore { txStart lvl w.store with pending := p1 },
      env := w.env } hc hs hr e2 p2 hcb2
  obtain ⟨e3, p3, hcb3, hdl3⟩ := hcb (txStart lvl
    (rollbackStore { txStart lvl
      (rollbackStore { txStart lvl w.store with pending := p1 })
      with pending := p2 }))
  have hex3 := execute_attempt_fail cb lvl
    { store := rollbackStore { txStart lvl
        (rollbackStore { txStart lvl w.store with pending := p1 })
        with pending := p2 },
      env := w.env } hc hs hr e3 p3 hcb3
  have hstart : executeWithRetry cb lvl 3 b w
      = retryGo cb lvl b 1 2 w := rfl
  rw [hstart,
    retryGo_retry cb lvl b 1 2 1 w e1 _ _ rfl hex1 hdl1,
    retryGo_retry cb lvl b 2 1 0 _ e2 _ _ rfl hex2 hdl2,
    retryGo_last_fail cb lvl b 3 _ e3 _ _ hex3]
  refine ⟨?_, ?_, ⟨e3, rfl⟩⟩
  · simp only [stepCount_append, stepCount_attempt]
    rfl
  · simp only [delaysOf_append, delaysOf_attempt]
    have h1 : retryDelay b 1 = b := by
      unfold retryDelay
      simp
    have h2 : retryDelay b 2 = 2 * b := by
      unfold retryDelay
      simp [pow_one]
      exact Nat.mul_comm b 2
    simp [h1, h2, delaysOf]

/-- C5 (amended).  Under the default attempt budget (`defaultMaxRetries`
= 3) with a step that always raises a deadlock-classified (retryable)
failure and a fault-free driver, `executeWithRetry` invokes the step
exactly 3 times and then propagates the failure; it waits
`base * 2^(k-1)` after failed attempt `k` only for `k = 1, 2`, so the
delays between attempts are `base, 2*base` — there is no third delay of
`4*base`, because after the final failed attempt the error propagates
immediately. -/
theorem retry_three_attempts_two_delays {α : Type} (cb : Step α)
    (lvl : IsoLevel) (w : World) (b : Nat)
    (hc : w.env.connectErr = none) (hs : w.env.startTxErr = none)
    (hr : w.env.rollbackErr = none)
    (hcb : ∀ st : Store, ∃ e p, cb st = (Except.error e, p) ∧
      isDeadlockError e = true) :
    stepCount (executeWithRetry cb lvl defaultMaxRetries b w).2.2 = 3 ∧
    delaysOf (executeWithRetry cb lvl defaultMaxRetries b w).2.2 = [b, 2 * b] ∧
    ∃ e, (executeWithRetry cb lvl defaultMaxRetries b w).1 = Except.error e :=
  retryDeadlockThreeAttempts cb lvl w b hc hs hr hcb

/-- Witness for amended C5: the deadlock-throwing step under the default
configuration. -/
theorem retry_three_attempts_two_delays_witness :
    stepCount (executeWithRetry deadlockStep IsoLevel.readCommitted
      defaultMaxRetries 100 w0).2.2 = 3 ∧
    delaysOf (executeWithRetry deadlockStep IsoLevel.readCommitted
      defaultMaxRetries 100 w0).2.2 = [100, 2 * 100] ∧
    ∃ e, (executeWithRetry deadlockStep IsoLevel.readCommitted
      defaultMaxRetries 100 w0).1 = Except.error e := by
  exact retry_three_attempts_two_delays deadlockStep IsoLevel.readCommitted w0 100
    rfl rfl rfl
    (fun st => ⟨JsErr.mk "Deadlock found when trying to get lock; try restarting transaction",
      st.pending, rfl, by decide⟩)

/-- A step that always throws a fixed message, leaving pending writes
unchanged. -/
def constFail (m : String) : Step Unit := fun st =>
  (Except.error (JsErr.mk m), st.pending)

/-- A failed attempt whose error the classifier rejects propagates at
once, whether or not retries remain. -/
theorem retryGo_nonretry (cb : Step α) (lvl : IsoLevel)
    (base attempt remaining : Nat) (w : World)
    (e : JsErr) (w' : World) (tr : List Ev)
    (hex : execute cb lvl Ctx.noCtx w = (Except.error e, w', tr))
    (hnd : isDeadlockError e = false) :
    retryGo cb lvl base attempt remaining w = (Except.error e, w', tr) := by
  cases remaining with
  | zero => rw [retryGo, hex]
  | succ r =>
      rw [retryGo, hex]
      simp [hnd]

/-- Counterexample to C6 as stated.  The classifier returns `false` on a
store-reported lock-wait timeout (MySQL error 1205) and on a
serialization conflict (PostgreSQL 40001 wording), two of the three
failure kinds the claim says it accepts; it returns `true` on a deadlock
message.  Consequently `executeWithRetry` under the default budget
invokes a step that always raises the lock-wait timeout exactly once —
the failure propagates without retry. -/
theorem retry_classifier_counterexample :
    isDeadlockError
      (JsErr.mk "Lock wait timeout exceeded; try restarting transaction") = false ∧
    isDeadlockError
      (JsErr.mk "could not serialize access due to concurrent update") = false ∧
    isDeadlockError
      (JsErr.mk "Deadlock found when trying to get lock; try restarting transaction") = true ∧
    stepCount (executeWithRetry
      (constFail "Lock wait timeout exceeded; try restarting transaction")
      IsoLevel.readCommitted defaultMaxRetries defaultRetryDelayMs w0).2.2 = 1 := by
  refine ⟨by decide, by decide, by decide, by decide⟩

/-- C6 (amended).  The retry classifier `isDeadlockError` returns `true`
exactly when the lower-cased message contains `deadlock`,
`wait-for graph` or `1213` — deadlock signals only; lock-wait-timeout
and serialization-conflict messages that carry none of these substrings
are classified `false`.  Behaviourally: a step always failing with a
message the classifier rejects is invoked exactly once by
`executeWithRetry` (any positive budget `n+1`), with no backoff delay,
the failure propagating immediately; a step always failing with a
message the classifier accepts is invoked exactly 3 times under the
default budget of 3, with backoff delays in between. -/
theorem retry_exactly_deadlock_signals (m : String) (lvl : IsoLevel)
    (w : World) (b n : Nat)
    (hc : w.env.connectErr = none) (hs : w.env.startTxErr = none)
    (hr : w.env.rollbackErr = none) :
    (isDeadlockError (JsErr.mk m) = false →
      stepCount (executeWithRetry (constFail m) lvl (n + 1) b w).2.2 = 1 ∧
      delaysOf (executeWithRetry (constFail m) lvl (n + 1) b w).2.2 = [] ∧
      (executeWithRetry (constFail m) lvl (n + 1) b w).1
        = Except.error (JsErr.mk m)) ∧
    (isDeadlockError (JsErr.mk m) = true →
      stepCount (executeWithRetry (constFail m) lvl 3 b w).2.2 = 3 ∧
      delaysOf (executeWithRetry (constFail m) lvl 3 b w).2.2 = [b, 2 * b]) := by
  constructor
  · intro hnd
    have h0 : executeWithRetry (constFail m) lvl (n + 1) b w
        = retryGo (constFail m) lvl b 1 n w := rfl
    have hex := execute_attempt_fail (constFail m) lvl w hc hs hr
      (JsErr.mk m) [] rfl
    rw [h0, retryGo_nonretry (constFail m) lvl b 1 n w
      (JsErr.mk m) _ _ hex hnd]
    exact ⟨stepCount_attempt lvl, delaysOf_attempt lvl, rfl⟩
  · intro hid
    have h := retryDeadlockThreeAttempts (constFail m) lvl w b hc hs hr
      (fun st => ⟨JsErr.mk m, st.pending, rfl, hid⟩)
    exact ⟨h.1, h.2.1⟩

/-- Witness for amended C6: the lock-wait-timeout message is not
retried; the deadlock message is retried to exhaustion. -/
theorem retry_exactly_deadlock_signals_witness :
    stepCount (executeWithRetry
      (constFail "Lock wait timeout exceeded; try restarting transaction")
      IsoLevel.readCommitted (2 + 1) 100 w0).2.2 = 1 ∧
    stepCount (executeWithRetry
      (constFail "Deadlock found when trying to get lock; try restarting transaction")
      IsoLevel.readCommitted 3 100 w0).2.2 = 3 := by
  have h1 := retry_exactly_deadlock_signals
    "Lock wait timeout exceeded; try restarting transaction"
    IsoLevel.readCommitted w0 100 2 rfl rfl rfl
  have h2 := retry_exactly_deadlock_signals
    "Deadlock found when trying to get lock; try restarting transaction"
    IsoLevel.readCommitted w0 100 2 rfl rfl rfl
  exact ⟨(h1.1 (by decide)).1, (h2.2 (by decide)).1⟩

/-- C7.  On an already-open transaction, the savepoint wrapper: on step
success releases the savepoint and returns the step's result; on step
failure issues rollback-to-savepoint (an error from that statement is
swallowed and logged) and re-raises the original step failure.  In both
branches the enclosing transaction stays active, is never rolled back
(no transaction-rollback event), and the committed store is untouched;
on failure only the savepoint's effects are undone (pending writes are
restored to their pre-savepoint value when the rollback-to-savepoint
statement succeeds). -/
theorem savepoint_wrapper_semantics {α : Type} (cb : Step α) (w : World)
    (hact : w.store.txActive = true) (hcr : w.env.spCreateErr = none) :
    (∀ v p, cb w.store = (Except.ok v, p) → w.env.spReleaseErr = none →
      (executeWithSavepoint cb w).1 = Except.ok v ∧
      (executeWithSavepoint cb w).2.1.store.txActive = true ∧
      (executeWithSavepoint cb w).2.1.store.committed = w.store.committed ∧
      (executeWithSavepoint cb w).2.1.store.pending = p ∧
      Ev.rollbackTx ∉ (executeWithSavepoint cb w).2.2 ∧
      Ev.spRelease ∈ (executeWithSavepoint cb w).2.2) ∧
    (∀ e p, cb w.store = (Except.error e, p) →
      (executeWithSavepoint cb w).1 = Except.error e ∧
      (executeWithSavepoint cb w).2.1.store.txActive = true ∧
      (executeWithSavepoint cb w).2.1.store.committed = w.store.committed ∧
      Ev.rollbackTx ∉ (executeWithSavepoint cb w).2.2 ∧
      (w.env.spRollbackErr = none →
        (executeWithSavepoint cb w).2.1.store.pending = w.store.pending ∧
        Ev.spRollback ∈ (executeWithSavepoint cb w).2.2) ∧
      (∀ m, w.env.spRollbackErr = some m →
        Ev.logError m ∈ (executeWithSavepoint cb w).2.2)) := by
  constructor
  · intro v p hcb hrel
    have h1 : executeWithSavepoint cb w
        = (Except.ok v, { w with store := { w.store with pending := p } },
           [Ev.spCreate, Ev.stepRun 0] ++ [Ev.spRelease]) := by
      unfold executeWithSavepoint
      rw [hcr]
      simp only [hcb, hrel]
    rw [h1]
    refine ⟨rfl, hact, rfl, rfl, by simp, by simp⟩
  · intro e p hcb
    have h1 : executeWithSavepoint cb w
        = spCatch e w.store.pending
            { w with store := { w.store with pending := p } }
            [Ev.spCreate, Ev.stepRun 0] := by
      unfold executeWithSavepoint
      rw [hcr]
      simp only [hcb]
    rw [h1]
    cases hsp : w.env.spRollbackErr with
    | none =>
        refine ⟨by simp [spCatch, hsp], by simp [spCatch, hsp, hact],
          by simp [spCatch, hsp], by simp [spCatch, hsp], ?_, ?_⟩
        · intro hnone
          exact ⟨by simp [spCatch, hsp], by simp [spCatch, hsp]⟩
        · intro m hm
          simp at hm
    | some m0 =>
        refine ⟨by simp [spCatch, hsp], by simp [spCatch, hsp, hact],
          by simp [spCatch, hsp], by simp [spCatch, hsp], ?_, ?_⟩
        · intro hm
          simp at hm
        · intro m hm
          have hmm : m0 = m := Option.some.inj hm
          subst hmm
          simp [spCatch, hsp]

/-- World with an already-open transaction holding pending write `p0`. -/
def wtx : World :=
  { store := { committed := ["base"], pending := ["p0"], txActive := true,
               txLevel := some IsoLevel.serializable },
    env := benv }

/-- Witness for C7: a failing step inside the savepoint wrapper re-raises
its error, leaves the enclosing transaction active, restores the
pre-savepoint pending writes, and never rolls back the transaction. -/
theorem savepoint_wrapper_semantics_witness :
    (executeWithSavepoint stepFailC wtx).1 = Except.error (JsErr.mk "boom") ∧
    (executeWithSavepoint stepFailC wtx).2.1.store.txActive = true ∧
    (executeWithSavepoint stepFailC wtx).2.1.store.pending = ["p0"] ∧
    Ev.rollbackTx ∉ (executeWithSavepoint stepFailC wtx).2.2 := by
  have h := savepoint_wrapper_semantics stepFailC wtx rfl rfl
  have h2 := h.2 (JsErr.mk "boom") ["junk"] rfl
  exact ⟨h2.1, h2.2.1, (h2.2.2.2.2.1 rfl).1, h2.2.2.2.1⟩

/-- The savepoint catch path never releases the runner. -/
theorem spCatch_relCount (o : JsErr) (s : List String) (w : World)
    (tr : List Ev) :
    relCount (spCatch (α := α) o s w tr).2.2 = relCount tr := by
  unfold spCatch
  split
  · rw [relCount_append]
    have hz : ∀ m, relCount [Ev.logError m] = 0 := fun m => rfl
    rw [hz]
    omega
  · rw [relCount_append]
    have hz : relCount [Ev.spRollback] = 0 := rfl
    rw [hz]
    omega

/-- The savepoint wrapper itself never releases the runner (the release
of the fresh runner is done by `execute`'s own `finally`). -/
theorem executeWithSavepoint_relCount (cb : Step α) (w : World) :
    relCount (executeWithSavepoint cb w).2.2 = 0 := by
  unfold executeWithSavepoint
  cases hcr : w.env.spCreateErr with
  | some m =>
      simp only []
      rw [spCatch_relCount]
      rfl
  | none =>
      simp only []
      rcases hcb : cb w.store with ⟨r, p⟩
      cases r with
      | ok v =>
          simp only []
          cases hrel : w.env.spReleaseErr with
          | some m =>
              simp only []
              rw [spCatch_relCount]
              rfl
          | none =>
              simp only []
              rfl
      | error e =>
          simp only []
          rw [spCatch_relCount]
          rfl

/-- Every branch of `execute` releases the runner exactly once. -/
theorem execute_relCount (cb : Step α) (lvl : IsoLevel) (ctx : Ctx)
    (w : World) :
    relCount (execute cb lvl ctx w).2.2 = 1 := by
  have hz : relCount [Ev.connect, Ev.startTx lvl, Ev.stepRun 0] = 0 := by
    cases lvl <;> rfl
  have hnested : ctx = Ctx.entry true →
      relCount (execute cb lvl ctx w).2.2 = 1 := by
    intro hctx
    subst hctx
    unfold execute
    rcases hsp : executeWithSavepoint cb w with ⟨r, w1, tr⟩
    simp only []
    rw [relCount_append]
    have h0 := executeWithSavepoint_relCount cb w
    rw [hsp] at h0
    simp only [] at h0
    rw [h0]
    rfl
  have hdefault : relCount
      (match w.env.connectErr with
       | some m => ((Except.error (JsErr.mk m) : Except JsErr α), w, [Ev.release])
       | none =>
          match w.env.startTxErr with
          | some m => (Except.error (JsErr.mk m), w, [Ev.connect, Ev.release])
          | none =>
              let w1 : World := { w with store := txStart lvl w.store }
              let (r, p) := cb w1.store
              let w2 : World := { w1 with store := { w1.store with pending := p } }
              let tr := [Ev.connect, Ev.startTx lvl, Ev.stepRun 0]
              match r with
              | Except.ok v =>
                  match w2.env.commitErr with
                  | some m => txCatchRelease (JsErr.mk m) w2 tr
                  | none =>
                      (Except.ok v, { w2 with store := commitStore w2.store },
                       tr ++ [Ev.commitTx, Ev.release])
              | Except.error e => txCatchRelease e w2 tr).2.2 = 1 := by
    cases hc : w.env.connectErr with
    | some m => rfl
    | none =>
        cases hs : w.env.startTxErr with
        | some m => simp only []; rfl
        | none =>
            simp only []
            rcases hcb : cb (txStart lvl w.store) with ⟨r, p⟩
            simp only [hcb]
            cases r with
            | ok v =>
                simp only []
                cases hcm : w.env.commitErr with
                | some m =>
                    simp only []
                    rw [txCatchRelease_relCount]
                    omega
                | none =>
                    simp only []
                    rw [relCount_append]
                    have ho : relCount [Ev.commitTx, Ev.release] = 1 := rfl
                    omega
            | error e =>
                simp only []
                rw [txCatchRelease_relCount]
                omega
  cases ctx with
  | entry isActive =>
      cases isActive with
      | true => exact hnested rfl
      | false => exact hdefault
  | noCtx => exact hdefault

/-- Every branch of the operation loop releases the runner exactly once. -/
theorem depGo_relCount (ops : List (Step α)) (acc : List α) (w : World)
    (tr : List Ev) :
    relCount (depGo ops acc w tr).2.2 = relCount tr + 1 := by
  induction ops generalizing acc w tr with
  | nil =>
      unfold depGo
      cases hcm : w.env.commitErr with
      | some m =>
          simp only []
          rw [txCatchRelease_relCount]
      | none =>
          simp only []
          rw [relCount_append]
          rfl
  | cons op rest ih =>
      unfold depGo
      rcases hop : op w.store with ⟨r, p⟩
      simp only []
      cases r with
      | ok v =>
          rw [ih]
          rw [relCount_append]
          have hz : relCount [Ev.stepRun acc.length] = 0 := rfl
          rw [hz]
      | error e =>
          rw [txCatchRelease_relCount, relCount_append]
          have hz : relCount [Ev.stepRun acc.length] = 0 := rfl
          rw [hz]

/-- Every branch of `executeDependent` releases the runner exactly once. -/
theorem executeDependent_relCount (ops : List (Step α)) (lvl : IsoLevel)
    (w : World) :
    relCount (executeDependent ops lvl w).2.2 = 1 := by
  have hone : relCount [Ev.release] = 1 := rfl
  unfold executeDependent
  cases hc : w.env.connectErr with
  | some m => simp only []; rw [hone]
  | none =>
      cases hs : w.env.startTxErr with
      | some m =>
          simp only []
          rfl
      | none =>
          simp only []
          rw [depGo_relCount]
          cases lvl <;> rfl

/-- C8.  For every invocation of `execute` (with any context) and of
`executeDependent`, over every fault pattern of the driver — success
with commit, step failure with rollback, commit failure, rollback
failure, connect or begin failure, savepoint statement failures — the
query runner the call creates is released exactly once; no execution
path leaves it unreleased and none releases it twice. -/
theorem connection_released_exactly_once {α : Type} :
    (∀ (cb : Step α) (lvl : IsoLevel) (ctx : Ctx) (w : World),
      relCount (execute cb lvl ctx w).2.2 = 1) ∧
    (∀ (ops : List (Step α)) (lvl : IsoLevel) (w : World),
      relCount (executeDependent ops lvl w).2.2 = 1) :=
  ⟨fun cb lvl ctx w => execute_relCount cb lvl ctx w,
   fun ops lvl w => executeDependent_relCount ops lvl w⟩

/-- The catch/finally tail keeps every event of the incoming trace. -/
theorem txCatchRelease_trace_mono (orig : JsErr) (w : World) (tr : List Ev)
    (x : Ev) (hx : x ∈ tr) :
    x ∈ (txCatchRelease (β := β) orig w tr).2.2 := by
  unfold txCatchRelease
  split
  · split
    · exact List.mem_append.mpr (Or.inl hx)
    · exact List.mem_append.mpr (Or.inl hx)
  · exact List.mem_append.mpr (Or.inl hx)

/-- The operation loop keeps every event of the incoming trace. -/
theorem depGo_trace_mono (ops : List (Step α)) (acc : List α) (w : World)
    (tr : List Ev) (x : Ev) (hx : x ∈ tr) :
    x ∈ (depGo ops acc w tr).2.2 := by
  induction ops generalizing acc w tr with
  | nil =>
      unfold depGo
      cases hcm : w.env.commitErr with
      | some m =>
          simp only []
          exact txCatchRelease_trace_mono _ _ _ x hx
      | none =>
          simp only []
          exact List.mem_append.mpr (Or.inl hx)
  | cons op rest ih =>
      unfold depGo
      rcases hop : op w.store with ⟨r, p⟩
      simp only []
      cases r with
      | ok v =>
          exact ih (acc ++ [v]) _ _ (List.mem_append.mpr (Or.inl hx))
      | error e =>
          exact txCatchRelease_trace_mono _ _ _ x
            (List.mem_append.mpr (Or.inl hx))

/-- The operation loop emits no savepoint events: any savepoint event in
its output trace was already in the incoming trace. -/
theorem depGo_no_savepoint_events (ops : List (Step α)) (acc : List α)
    (w : World) (tr : List Ev) (x : Ev)
    (hsp : x = Ev.spCreate ∨ x = Ev.spRelease ∨ x = Ev.spRollback)
    (hmem : x ∈ (depGo ops acc w tr).2.2) : x ∈ tr := by
  induction ops generalizing acc w tr with
  | nil =>
      unfold depGo at hmem
      cases hcm : w.env.commitErr with
      | some m =>
          rw [hcm] at hmem
          simp only [] at hmem
          rcases txCatchRelease_trace_shape _ _ _ x hmem with h | h | h
          · exact h
          · rcases hsp with h2 | h2 | h2 <;> (rw [h2] at h; exact Ev.noConfusion h)
          · rcases hsp with h2 | h2 | h2 <;> (rw [h2] at h; exact Ev.noConfusion h)
      | none =>
          rw [hcm] at hmem
          simp only [] at hmem
          rcases List.mem_append.mp hmem with h | h
          · exact h
          · rcases hsp with h2 | h2 | h2 <;> (subst h2; simp at h)
  | cons op rest ih =>
      unfold depGo at hmem
      rcases hop : op w.store with ⟨r, p⟩
      rw [hop] at hmem
      cases r with
      | ok v =>
          simp only [] at hmem
          have h := ih (acc ++ [v]) _ _ hmem
          rcases List.mem_append.mp h with h2 | h2
          · exact h2
          · rcases hsp with h3 | h3 | h3 <;> (subst h3; simp at h2)
      | error e =>
          simp only [] at hmem
          rcases txCatchRelease_trace_shape _ _ _ x hmem with h | h | h
          · rcases List.mem_append.mp h with h2 | h2
            · exact h2
            · rcases hsp with h3 | h3 | h3 <;> (subst h3; simp at h2)
          · rcases hsp with h2 | h2 | h2 <;> (rw [h2] at h; exact Ev.noConfusion h)
          · rcases hsp with h2 | h2 | h2 <;> (rw [h2] at h; exact Ev.noConfusion h)

/-- C9.  `executeDependent` never takes the reuse-or-savepoint path: for
every input — even a world whose store already has an active transaction
— its trace contains no savepoint event of any kind (the embedding, like
the source, gives `executeDependent` no context parameter and no lookup
of active transactions), and whenever the driver accepts the connect and
begin, the call acquires a new connection and begins a new independent
transaction at the requested level. -/
theorem executeDependent_never_nests {α : Type} (ops : List (Step α))
    (lvl : IsoLevel) (w : World) :
    Ev.spCreate ∉ (executeDependent ops lvl w).2.2 ∧
    Ev.spRelease ∉ (executeDependent ops lvl w).2.2 ∧
    Ev.spRollback ∉ (executeDependent ops lvl w).2.2 ∧
    (w.env.connectErr = none →
      Ev.connect ∈ (executeDependent ops lvl w).2.2 ∧
      (w.env.startTxErr = none →
        Ev.startTx lvl ∈ (executeDependent ops lvl w).2.2)) := by
  unfold executeDependent
  cases hc : w.env.connectErr with
  | some m =>
      simp only []
      refine ⟨by simp, by simp, by simp, ?_⟩
      intro h
      simp at h
  | none =>
      cases hs : w.env.startTxErr with
      | some m =>
          simp only []
          refine ⟨by simp, by simp, by simp, ?_⟩
          intro _
          refine ⟨by simp, ?_⟩
          intro h
          simp at h
      | none =>
          simp only []
          refine ⟨?_, ?_, ?_, ?_⟩
          · intro hmem
            have := depGo_no_savepoint_events _ _ _ _ _ (Or.inl rfl) hmem
            simp at this
          · intro hmem
            have := depGo_no_savepoint_events _ _ _ _ _
              (Or.inr (Or.inl rfl)) hmem
            simp at this
          · intro hmem
            have := depGo_no_savepoint_events _ _ _ _ _
              (Or.inr (Or.inr rfl)) hmem
            simp at this
          · intro _
            refine ⟨?_, ?_⟩
            · exact depGo_trace_mono _ _ _ _ _ (by simp)
            · intro _
              exact depGo_trace_mono _ _ _ _ _ (by simp)

/-- Witness for C9: even inside a world with an open transaction (`wtx`),
`executeDependent` opens its own connection and transaction and uses no
savepoint. -/
theorem executeDependent_never_nests_witness :
    Ev.spCreate ∉ (executeDependent demoOps3 IsoLevel.serializable wtx).2.2 ∧
    Ev.connect ∈ (executeDependent demoOps3 IsoLevel.serializable wtx).2.2 ∧
    Ev.startTx IsoLevel.serializable
      ∈ (executeDependent demoOps3 IsoLevel.serializable wtx).2.2 := by
  have h := executeDependent_never_nests demoOps3 IsoLevel.serializable wtx
  exact ⟨h.1, (h.2.2.2 rfl).1, (h.2.2.2 rfl).2 rfl⟩

/-- Every event of the savepoint wrapper's trace is a savepoint
statement, the step invocation, or a swallowed-error log entry. -/
theorem executeWithSavepoint_trace_shape (cb : Step α) (w : World) :
    ∀ x ∈ (executeWithSavepoint cb w).2.2,
      x = Ev.spCreate ∨ x = Ev.stepRun 0 ∨ x = Ev.spRelease ∨
      x = Ev.spRollback ∨ ∃ m, x = Ev.logError m := by
  unfold executeWithSavepoint
  cases hcr : w.env.spCreateErr with
  | some m =>
      simp only []
      intro x hx
      unfold spCatch at hx
      rcases hsp : w.env.spRollbackErr with _ | m2 <;> rw [hsp] at hx <;>
        simp only [] at hx <;> simp at hx
      · tauto
      · rcases hx with hx
        exact Or.inr (Or.inr (Or.inr (Or.inr ⟨m2, hx⟩)))
  | none =>
      simp only []
      rcases hcb : cb w.store with ⟨r, p⟩
      simp only []
      cases r with
      | ok v =>
          cases hrel : w.env.spReleaseErr with
          | some m =>
              simp only []
              intro x hx
              unfold spCatch at hx
              rcases hsp : w.env.spRollbackErr with _ | m2 <;> rw [hsp] at hx <;>
                simp only [] at hx <;> simp at hx
              · tauto
              · rcases hx with hx | hx | hx
                · exact Or.inl hx
                · exact Or.inr (Or.inl hx)
                · exact Or.inr (Or.inr (Or.inr (Or.inr ⟨m2, hx⟩)))
          | none =>
              simp only []
              intro x hx
              simp at hx
              tauto
      | error e =>
          simp only []
          intro x hx
          unfold spCatch at hx
          rcases hsp : w.env.spRollbackErr with _ | m2 <;> rw [hsp] at hx <;>
            simp only [] at hx <;> simp at hx
          · tauto
          · rcases hx with hx | hx | hx
            · exact Or.inl hx
            · exact Or.inr (Or.inl hx)
            · exact Or.inr (Or.inr (Or.inr (Or.inr ⟨m2, hx⟩)))

/-- The savepoint wrapper never changes the transaction's isolation
level (it only touches pending writes). -/
theorem executeWithSavepoint_txLevel (cb : Step α) (w : World) :
    (executeWithSavepoint cb w).2.1.store.txLevel = w.store.txLevel := by
  unfold executeWithSavepoint
  cases hcr : w.env.spCreateErr with
  | some m =>
      simp only []
      unfold spCatch
      rcases hsp : w.env.spRollbackErr with _ | m2 <;> simp
  | none =>
      simp only []
      rcases hcb : cb w.store with ⟨r, p⟩
      simp only []
      cases r with
      | ok v =>
          cases hrel : w.env.spReleaseErr with
          | some m =>
              simp only []
              unfold spCatch
              rcases hsp : w.env.spRollbackErr with _ | m2 <;> simp
          | none => simp
      | error e =>
          simp only []
          unfold spCatch
          rcases hsp : w.env.spRollbackErr with _ | m2 <;> simp

/-- C10.  When `execute` is invoked with a context whose transaction is
already active (the nested/savepoint path), the `isolationLevel`
argument has no effect: the call's entire outcome (result, world,
trace) is identical for any two requested levels, no transaction is
started (no begin-transaction event of any level appears in the trace),
and the store keeps whatever isolation level the parent transaction was
opened with. -/
theorem execute_nested_ignores_isolation {α : Type} (cb : Step α)
    (l1 l2 : IsoLevel) (w : World) :
    execute cb l1 (Ctx.entry true) w = execute cb l2 (Ctx.entry true) w ∧
    (∀ l, Ev.startTx l ∉ (execute cb l1 (Ctx.entry true) w).2.2) ∧
    (execute cb l1 (Ctx.entry true) w).2.1.store.txLevel
      = w.store.txLevel := by
  refine ⟨rfl, ?_, ?_⟩
  · intro l hmem
    unfold execute at hmem
    rcases hsp : executeWithSavepoint cb w with ⟨r, w1, tr⟩
    rw [hsp] at hmem
    simp only [] at hmem
    rcases List.mem_append.mp hmem with h | h
    · have h2 := executeWithSavepoint_trace_shape cb w (Ev.startTx l)
        (by rw [hsp]; exact h)
      rcases h2 with h2 | h2 | h2 | h2 | ⟨m, h2⟩ <;> exact Ev.noConfusion h2
    · simp at h
  · unfold execute
    rcases hsp : executeWithSavepoint cb w with ⟨r, w1, tr⟩
    simp only []
    have h2 := executeWithSavepoint_txLevel cb w
    rw [hsp] at h2
    simpa using h2

/-- Witness for C10: on `wtx` the nested call behaves identically for
`ReadUncommitted` and `Serializable`, and the parent's `Serializable`
level is preserved. -/
theorem execute_nested_ignores_isolation_witness :
    execute stepOkA IsoLevel.readUncommitted (Ctx.entry true) wtx
      = execute stepOkA IsoLevel.serializable (Ctx.entry true) wtx ∧
    Ev.startTx IsoLevel.readUncommitted
      ∉ (execute stepOkA IsoLevel.readUncommitted (Ctx.entry true) wtx).2.2 ∧
    (execute stepOkA IsoLevel.readUncommitted (Ctx.entry true) wtx).2.1.store.txLevel
      = some IsoLevel.serializable := by
  have h := execute_nested_ignores_isolation stepOkA
    IsoLevel.readUncommitted IsoLevel.serializable wtx
  exact ⟨h.1, h.2.1 IsoLevel.readUncommitted, h.2.2⟩
